import Mathlib

set_option maxRecDepth 4096

/-!
Shallow embedding of express-route-builder (lib/index.js and lib/logger.js).

JavaScript values appearing as object fields are modelled by `JSVal`;
functions are opaque tokens (`funV`), since middleware generators are external
black boxes.  The `include` field of a middleware descriptor is modelled by
`Option IncludeVal`: absent, a scalar string, or an array of strings (the
policy domain of the library).  The module-level mutable array `middlewares`
becomes an explicit `List MWObject` threaded through the API functions; a
JavaScript `throw` becomes an error result carrying the unchanged state
(every throw in the source happens before the single mutation point).
-/

/-- A JavaScript field value: undefined, null, boolean, number, string, or an
opaque function token. -/
inductive JSVal where
  | undefined
  | null
  | boolV (b : Bool)
  | numV (n : Int)
  | strV (s : String)
  | funV (f : Nat)
deriving DecidableEq

/-- JavaScript truthiness of a `JSVal` (the `if (x)` test). -/
def jsTruthy : JSVal → Bool
  | JSVal.undefined => false
  | JSVal.null => false
  | JSVal.boolV b => b
  | JSVal.numV n => n != 0
  | JSVal.strV s => s != ""
  | JSVal.funV _ => true

/-- The JavaScript `typeof` operator on a `JSVal`. -/
def jsTypeof : JSVal → String
  | JSVal.undefined => "undefined"
  | JSVal.null => "object"
  | JSVal.boolV _ => "boolean"
  | JSVal.numV _ => "number"
  | JSVal.strV _ => "string"
  | JSVal.funV _ => "function"

/-- JavaScript string coercion `String(v)` of a `JSVal` (functions are only
coerced through validated descriptor names, which are strings, so the
`funV` clause is never relevant). -/
def jsToString : JSVal → String
  | JSVal.undefined => "undefined"
  | JSVal.null => "null"
  | JSVal.boolV true => "true"
  | JSVal.boolV false => "false"
  | JSVal.numV n => toString n
  | JSVal.strV s => s
  | JSVal.funV _ => "function"

/-- The `include` field of a middleware object: a scalar string or an array of
strings (the policy domain used by the library). -/
inductive IncludeVal where
  | str (s : String)
  | arr (l : List String)
deriving DecidableEq

/-- Truthiness of an `include` value ("" is falsy, any array is truthy). -/
def iTruthy : IncludeVal → Bool
  | IncludeVal.str s => s != ""
  | IncludeVal.arr _ => true

/-- Truthiness of a possibly-absent `include` field. -/
def includeTruthy : Option IncludeVal → Bool
  | none => false
  | some i => iTruthy i

/-- A middleware object, both as passed to `addMiddleware` and as stored in
the registry (the stored object is the argument object, with `include`
possibly normalized in place). -/
structure MWObject where
  name : JSVal
  incl : Option IncludeVal
  generator : JSVal
deriving DecidableEq

/-- The argument passed to `addMiddleware`: absent, a primitive, a function,
or a structured object. -/
inductive AddArg where
  | missing
  | nullV
  | boolA (b : Bool)
  | numA (n : Int)
  | strA (s : String)
  | funA (f : Nat)
  | obj (o : MWObject)
deriving DecidableEq

/-- A route object: a plain object, i.e. a finite association of field names
to values (`path` and `method` are ordinary fields). -/
abbrev RouteObject := List (String × JSVal)

/-- Property read `routeObject[k]` (absent fields read as `undefined`). -/
def getField (r : RouteObject) (k : String) : JSVal :=
  (List.lookup k r).getD JSVal.undefined

/-- `routeObject.hasOwnProperty(k)`. -/
def hasOwn (r : RouteObject) (k : String) : Bool :=
  (List.lookup k r).isSome

/-- `s.indexOf(pat) >= 0` for JavaScript strings: substring search. -/
def strIndexOfNonneg (s pat : String) : Bool :=
  pat == "" || decide (2 ≤ (s.splitOn pat).length)

/-- `include.indexOf(v) >= 0`: for an array, strict-equality membership
(matching only when `v` is the same string); for a string, substring search
on the string coercion of `v`. -/
def inclHasToken (i : IncludeVal) (v : JSVal) : Bool :=
  match i with
  | IncludeVal.arr l =>
      match v with
      | JSVal.strV s => l.contains s
      | _ => false
  | IncludeVal.str s => strIndexOfNonneg s (jsToString v)

/-- Source `shouldAddMiddleware(routeObject, middlewareObject)`:
`middlewareObject.include && (include.indexOf("all") >= 0 ||
include.indexOf(routeObject.method) >= 0)`. -/
def shouldAddMiddleware (r : RouteObject) (m : MWObject) : Bool :=
  match m.incl with
  | none => false
  | some i =>
      iTruthy i && (inclHasToken i (JSVal.strV "all") ||
        inclHasToken i (getField r "method"))

/-- `[].concat(include)`: wrap a scalar, keep an array as is. -/
def concatWrap : Option IncludeVal → List String
  | some (IncludeVal.str s) => [s]
  | some (IncludeVal.arr l) => l
  | none => []

/-- The add-time normalization `if (mw.include) mw.include = [].concat(mw.include)`. -/
def normIncl (i : Option IncludeVal) : Option IncludeVal :=
  if includeTruthy i then some (IncludeVal.arr (concatWrap i)) else i

/-- Source `addMiddleware(middlewareObject)`: validate, normalize `include`,
push onto the module registry.  Result: the thrown error message (if any)
and the registry afterwards; every throw happens before the push, so the
registry is returned unchanged on error. -/
def addMiddleware (ms : List MWObject) (arg : AddArg) : Option String × List MWObject :=
  match arg with
  | AddArg.obj o =>
      if !(jsTruthy o.name) || jsTypeof o.name != "string" then
        (some "addMiddleware: name required", ms)
      else if !(jsTruthy o.generator) || jsTypeof o.generator != "function" then
        (some "addMiddleware: middlewareObject.generator must be a function", ms)
      else
        (none, ms ++ [{ o with incl := normIncl o.incl }])
  | _ =>
      -- `!middlewareObject || typeof middlewareObject !== "object"` rejects
      -- every non-object argument (null is falsy; primitives and functions
      -- have a different typeof), and accepts every structured object.
      (some "addMiddleware: middlewareObject must be an object", ms)

/-- Source `getMiddlewares()`: returns the registry array. -/
def getMiddlewares (ms : List MWObject) : List MWObject := ms

/-- The `forEach` body of `setMiddlewares`: add each element in order; a
throw aborts, keeping the elements already pushed. -/
def setMiddlewaresGo (ms : List MWObject) : List AddArg → Option String × List MWObject
  | [] => (none, ms)
  | a :: rest =>
      match addMiddleware ms a with
      | (some e, ms') => (some e, ms')
      | (none, ms') => setMiddlewaresGo ms' rest

/-- Source `setMiddlewares(middlewareObjects)`: `none` models a non-array
argument. -/
def setMiddlewares (ms : List MWObject) (args : Option (List AddArg)) :
    Option String × List MWObject :=
  match args with
  | none => (some "setMiddleware: middlewareObjects should be an Array", ms)
  | some l => setMiddlewaresGo ms l

/-- An element of a built chain: the leading path value, or the wrapped
handler `logger(name, middlewareObject.generator(routeObject[name]))`,
recorded symbolically as the label, the generator value, and the
configuration value the generator was applied to. -/
inductive ChainElem where
  | pathEl (p : JSVal)
  | handlerEl (label : String) (generator : JSVal) (cfg : JSVal)
deriving DecidableEq

/-- The dead-code test `middlewareObject.include === "required"`: strict
equality of the `include` field with the string `"required"`. -/
def inclStrictEqRequired : Option IncludeVal → Bool
  | some (IncludeVal.str s) => s == "required"
  | _ => false

/-- The `forEach` body of `buildMiddlewares` over the registry, accumulating
the chain built so far. -/
def buildGo (r : RouteObject) : List MWObject → List ChainElem → Except String (List ChainElem)
  | [], acc => Except.ok acc
  | m :: rest, acc =>
      let name := jsToString m.name
      if inclStrictEqRequired m.incl && !(hasOwn r name) then
        Except.error (name ++ " is a required configuration")
      else if shouldAddMiddleware r m || hasOwn r name then
        buildGo r rest (acc ++ [ChainElem.handlerEl name m.generator (getField r name)])
      else
        buildGo r rest acc

/-- Source `buildMiddlewares(routeObject)`: validate `path` then `method`,
seed the chain with the path, then walk the registry in order. -/
def buildMiddlewares (ms : List MWObject) (r : RouteObject) : Except String (List ChainElem) :=
  if !(jsTruthy (getField r "path")) then
    Except.error "route object requires a \x27path\x27 attribute"
  else if !(jsTruthy (getField r "method")) then
    Except.error "route object requires a \x27methods\x27 attribute"
  else
    buildGo r ms [ChainElem.pathEl (getField r "path")]

/-- ASCII lowercasing of one character, as `String.prototype.toLowerCase`
acts on the ASCII method names the library deals with. -/
def lowerChar (c : Char) : Char :=
  if 65 ≤ c.toNat ∧ c.toNat ≤ 90 then Char.ofNat (c.toNat + 32) else c

/-- `method.toLowerCase()` (ASCII). -/
def jsToLower (s : String) : String :=
  String.mk (s.data.map lowerChar)

/-- The router collaborator: records each registration call
`router[methodLower].apply(router, chain)` as a `(methodLower, chain)` entry,
in call order. -/
structure Router where
  registered : List (String × List ChainElem)
deriving DecidableEq

/-- Source `buildRouter(router, routeObjects)`: for each route in order,
check `method`, build the chain, then call the router entry named after the
lowercased method with the chain.  The result pairs the thrown error (if
any) with the router, which keeps every registration made before a throw. -/
def buildRouter (ms : List MWObject) (router : Router) :
    List RouteObject → Option String × Router
  | [] => (none, router)
  | r :: rest =>
      if !(jsTruthy (getField r "method")) then
        (some "routeObject requires a \x27method\x27 object", router)
      else
        match buildMiddlewares ms r with
        | Except.error e => (some e, router)
        | Except.ok chain =>
            match getField r "method" with
            | JSVal.strV s =>
                buildRouter ms { registered := router.registered ++ [(jsToLower s, chain)] } rest
            | _ =>
                -- a truthy non-string method has no toLowerCase: TypeError
                (some "TypeError: routeObject.method.toLowerCase is not a function", router)

/-- One call to an exported API function of the module. -/
inductive ApiCall where
  | add (a : AddArg)
  | addMany (a : Option (List AddArg))
  | listAll
  | build (r : RouteObject)
  | buildR (router : Router) (rs : List RouteObject)

/-- The transition of the module-level `middlewares` array under one exported
API call.  `buildMiddlewares` and `buildRouter` contain no assignment to the
array (they only read it), so their transitions are the identity. -/
def apiStep (ms : List MWObject) : ApiCall → List MWObject
  | ApiCall.add a => (addMiddleware ms a).2
  | ApiCall.addMany a => (setMiddlewares ms a).2
  | ApiCall.listAll => getMiddlewares ms
  | ApiCall.build _ => ms
  | ApiCall.buildR _ _ => ms

/-- The registry `new` extends `old` by appended entries only. -/
def registryExtends (old new : List MWObject) : Prop :=
  ∃ tail, new = old ++ tail

/-- The shape an `include` field can have on a descriptor stored through
`addMiddleware`: absent, the empty scalar (falsy, skipped by normalization),
or an array. -/
def addedFormB : Option IncludeVal → Bool
  | none => true
  | some (IncludeVal.str s) => s == ""
  | some (IncludeVal.arr _) => true

/-- The specification-side notion "the include policy contains token `tok`":
membership for a sequence; a scalar policy is the single token it consists
of. -/
def policyContains (i : Option IncludeVal) (tok : String) : Bool :=
  match i with
  | none => false
  | some (IncludeVal.arr l) => l.contains tok
  | some (IncludeVal.str s) => s == tok

/-- The specification-side notion "the include policy contains a token equal
(as a string) to the route's method". -/
def methodTokenMatch (r : RouteObject) (i : Option IncludeVal) : Bool :=
  match getField r "method" with
  | JSVal.strV s => policyContains i s
  | _ => false

/-- The specification-side inclusion criterion for descriptor `m` on route
`r`: policy contains "all", or contains a token equal (as a string) to the
route's method, or the route has an own field named after the descriptor. -/
def claimCond (r : RouteObject) (m : MWObject) : Bool :=
  policyContains m.incl "all" || methodTokenMatch r m.incl || hasOwn r (jsToString m.name)

/-- The code-side inclusion condition tested by `buildMiddlewares`. -/
def inclCond (r : RouteObject) (m : MWObject) : Bool :=
  shouldAddMiddleware r m || hasOwn r (jsToString m.name)

/-- The chain element produced for an included descriptor. -/
def mkHandler (r : RouteObject) (m : MWObject) : ChainElem :=
  ChainElem.handlerEl (jsToString m.name) m.generator (getField r (jsToString m.name))

/-- Whether a value is a non-empty string (a validated method field). -/
def isNonemptyStrVal : JSVal → Bool
  | JSVal.strV s => s != ""
  | _ => false

/-- Whether a chain build succeeded. -/
def exceptIsOk : Except String (List ChainElem) → Bool
  | Except.ok _ => true
  | Except.error _ => false

/-- The lowercased method key used for router registration. -/
def methodKey (r : RouteObject) : String :=
  match getField r "method" with
  | JSVal.strV s => jsToLower s
  | _ => ""

/-- Equality of chain-build results is decidable (used to evaluate the model
on concrete inputs). -/
instance : DecidableEq (Except String (List ChainElem)) := fun a b =>
  match a, b with
  | Except.ok x, Except.ok y =>
      if h : x = y then Decidable.isTrue (congrArg Except.ok h)
      else Decidable.isFalse (fun hh => h (Except.ok.inj hh))
  | Except.error x, Except.error y =>
      if h : x = y then Decidable.isTrue (congrArg Except.error h)
      else Decidable.isFalse (fun hh => h (Except.error.inj hh))
  | Except.ok _, Except.error _ => Decidable.isFalse (fun hh => Except.noConfusion hh)
  | Except.error _, Except.ok _ => Decidable.isFalse (fun hh => Except.noConfusion hh)

/-- The chain built for a route (meaningful when the build succeeds). -/
def chainOf (ms : List MWObject) (r : RouteObject) : List ChainElem :=
  match buildMiddlewares ms r with
  | Except.ok c => c
  | Except.error _ => []

/-- Whether a value is a function. -/
def isFunVal : JSVal → Bool
  | JSVal.funV _ => true
  | _ => false

/-- Whether an `addMiddleware` argument is a structured object. -/
def isObjArg : AddArg → Bool
  | AddArg.obj _ => true
  | _ => false

/-- Whether an `include` field is in sequence (array) form. -/
def isSeqForm : Option IncludeVal → Bool
  | some (IncludeVal.arr _) => true
  | _ => false

/-- A route descriptor that `buildRouter` registers without failing: its
method is a non-empty string and its chain builds successfully. -/
def goodRoute (ms : List MWObject) (r : RouteObject) : Prop :=
  isNonemptyStrVal (getField r "method") = true ∧ exceptIsOk (buildMiddlewares ms r) = true

instance (ms : List MWObject) (r : RouteObject) : Decidable (goodRoute ms r) :=
  inferInstanceAs (Decidable (_ ∧ _))

/-!
Model of lib/logger.js.  A handler's observable behaviour is a trace of
events: `user` events stand for whatever request/response work the
application middleware performs, `debug`/`debugErr` events are the log lines
emitted through node-debug.  A continuation maps the error value it is
invoked with to the trace of the rest of the chain; a handler maps the
request, the response and its continuation to its full trace and its return
value.  Requests, responses and return values are opaque tokens.
-/

/-- An observable event of a middleware run. -/
inductive Ev where
  | user (tag : Nat)
  | debug (label : String) (msg : String)
  | debugErr (label : String) (err : JSVal)
deriving DecidableEq

/-- A continuation (`next`): the trace produced by the rest of the chain
when invoked with an error value. -/
abbrev NextFn := JSVal → List Ev

/-- A middleware handler with the `(req, res, next)` signature: produces its
trace and its return value. -/
abbrev HandlerFn := Nat → Nat → NextFn → List Ev × Nat

/-- The substituted continuation `newNext` built by `logMiddlware`: log the
error or completion, then call the original `next` with the same `err`. -/
def wrapNext (label : String) (next : NextFn) : NextFn :=
  fun err =>
    (if jsTruthy err then [Ev.debugErr label err] else [Ev.debug label "complete"]) ++ next err

/-- Source `logMiddlware(label, middleware)` from lib/logger.js: log
"started", call the middleware once with the same `req` and `res` and the
substituted continuation, and pass its return value through. -/
def logMiddlware (label : String) (middleware : HandlerFn) : HandlerFn :=
  fun req res next =>
    let ret := middleware req res (wrapNext label next)
    (Ev.debug label "started" :: ret.1, ret.2)

/-- One step of a black-box middleware body: emit an event of its own, or
invoke its continuation with an error value. -/
inductive MWStep where
  | emit (e : Ev)
  | callNext (err : JSVal)

/-- A black-box middleware behaviour: for each request/response pair, the
steps it performs and the value it returns. -/
structure MWBeh where
  steps : Nat → Nat → List MWStep
  retV : Nat → Nat → Nat

/-- Run a step list against a continuation, producing the trace. -/
def runSteps (next : NextFn) : List MWStep → List Ev
  | [] => []
  | MWStep.emit e :: rest => e :: runSteps next rest
  | MWStep.callNext err :: rest => next err ++ runSteps next rest

/-- The handler denoted by a black-box middleware behaviour. -/
def interp (b : MWBeh) : HandlerFn :=
  fun req res next => (runSteps next (b.steps req res), b.retV req res)

/-- Non-logging events. -/
def isUserEv : Ev → Bool
  | Ev.user _ => true
  | _ => false

/-- Erase the logging events from a trace. -/
def eraseDebug (l : List Ev) : List Ev := l.filter isUserEv

/-! ### Helper lemmas -/

theorem getField_of_not_hasOwn (r : RouteObject) (k : String) (h : hasOwn r k = false) :
    getField r k = JSVal.undefined := by
  unfold hasOwn at h
  unfold getField
  cases hl : List.lookup k r with
  | none => rfl
  | some v => rw [hl] at h; simp at h

theorem addedFormB_required (i : Option IncludeVal) (h : addedFormB i = true) :
    inclStrictEqRequired i = false := by
  cases i with
  | none => rfl
  | some j =>
      cases j with
      | str s =>
          have : s = "" := by simpa [addedFormB] using h
          simp [inclStrictEqRequired, this]
      | arr l => rfl

theorem buildGo_spec (r : RouteObject) (l : List MWObject) :
    ∀ (acc : List ChainElem),
    (∀ m ∈ l, inclStrictEqRequired m.incl = false) →
    buildGo r l acc = Except.ok (acc ++ (l.filter (inclCond r)).map (mkHandler r)) := by
  induction l with
  | nil => intro acc _; simp [buildGo]
  | cons m rest ih =>
      intro acc h
      have hm : inclStrictEqRequired m.incl = false := h m (List.mem_cons_self m rest)
      have hrest : ∀ m' ∈ rest, inclStrictEqRequired m'.incl = false :=
        fun m' hm' => h m' (List.mem_cons_of_mem m hm')
      cases hc : inclCond r m with
      | true =>
          have hc' : (shouldAddMiddleware r m || hasOwn r (jsToString m.name)) = true := hc
          simp [buildGo, hm, hc', ih _ hrest, List.filter_cons, hc, mkHandler]
      | false =>
          have hc' : (shouldAddMiddleware r m || hasOwn r (jsToString m.name)) = false := hc
          simp [buildGo, hm, hc', ih _ hrest, List.filter_cons, hc]

theorem buildMiddlewares_spec (ms : List MWObject) (r : RouteObject)
    (hp : jsTruthy (getField r "path") = true)
    (hm : jsTruthy (getField r "method") = true)
    (hreq : ∀ m ∈ ms, inclStrictEqRequired m.incl = false) :
    buildMiddlewares ms r =
      Except.ok (ChainElem.pathEl (getField r "path") ::
        (ms.filter (inclCond r)).map (mkHandler r)) := by
  simp [buildMiddlewares, hp, hm, buildGo_spec r ms _ hreq]

theorem methodTokenMatch_none (r : RouteObject) : methodTokenMatch r none = false := by
  unfold methodTokenMatch
  cases getField r "method" <;> simp [policyContains]

theorem methodTokenMatch_emptyStr (r : RouteObject)
    (hm : jsTruthy (getField r "method") = true) :
    methodTokenMatch r (some (IncludeVal.str "")) = false := by
  unfold methodTokenMatch
  cases hv : getField r "method" with
  | strV s =>
      have hne : ¬ (s = "") := by
        intro hh; rw [hv, hh] at hm; simp [jsTruthy] at hm
      simp [policyContains]
      exact fun hh => absurd hh.symm hne
  | undefined => rfl
  | null => rfl
  | boolV b => rfl
  | numV n => rfl
  | funV f => rfl

theorem methodTokenMatch_arr (r : RouteObject) (l : List String) :
    methodTokenMatch r (some (IncludeVal.arr l)) =
      inclHasToken (IncludeVal.arr l) (getField r "method") := by
  unfold methodTokenMatch
  cases getField r "method" <;> simp [policyContains, inclHasToken]

theorem inclCond_eq_claimCond (r : RouteObject) (m : MWObject)
    (hm : jsTruthy (getField r "method") = true)
    (hf : addedFormB m.incl = true) :
    inclCond r m = claimCond r m := by
  cases hi : m.incl with
  | none =>
      simp [inclCond, claimCond, shouldAddMiddleware, policyContains, hi, methodTokenMatch_none]
  | some i =>
      cases i with
      | str s =>
          have hs : s = "" := by simpa [addedFormB, hi] using hf
          subst hs
          simp [inclCond, claimCond, shouldAddMiddleware, policyContains, hi, iTruthy,
            methodTokenMatch_emptyStr r hm]
      | arr l =>
          simp [inclCond, claimCond, shouldAddMiddleware, policyContains, hi, iTruthy,
            methodTokenMatch_arr, inclHasToken]
theorem nameCheck_eq (v : JSVal) :
    (!(jsTruthy v) || jsTypeof v != "string") = !(isNonemptyStrVal v) := by
  cases v <;> simp [jsTruthy, jsTypeof, isNonemptyStrVal]

theorem genCheck_eq (v : JSVal) :
    (!(jsTruthy v) || jsTypeof v != "function") = !(isFunVal v) := by
  cases v <;> simp [jsTruthy, jsTypeof, isFunVal]

theorem addMiddleware_ok_eq (ms : List MWObject) (o : MWObject)
    (hn : isNonemptyStrVal o.name = true) (hg : isFunVal o.generator = true) :
    addMiddleware ms (AddArg.obj o) = (none, ms ++ [{ o with incl := normIncl o.incl }]) := by
  simp only [addMiddleware]
  rw [nameCheck_eq, genCheck_eq, hn, hg]
  simp

theorem addMiddleware_err_snd (ms : List MWObject) (a : AddArg)
    (h : (addMiddleware ms a).1.isSome = true) : (addMiddleware ms a).2 = ms := by
  cases a with
  | obj o =>
      simp only [addMiddleware] at h ⊢
      rw [nameCheck_eq, genCheck_eq] at h ⊢
      cases hn : isNonemptyStrVal o.name with
      | false => simp [hn]
      | true =>
          cases hg : isFunVal o.generator with
          | false => simp [hn, hg]
          | true => simp [hn, hg] at h
  | missing => rfl
  | nullV => rfl
  | boolA b => rfl
  | numA n => rfl
  | strA s => rfl
  | funA f => rfl

theorem addMiddleware_snd_extends (ms : List MWObject) (a : AddArg) :
    ∃ t, (addMiddleware ms a).2 = ms ++ t := by
  cases a with
  | obj o =>
      cases hn : isNonemptyStrVal o.name with
      | false =>
          refine ⟨[], ?_⟩
          simp only [addMiddleware]
          rw [nameCheck_eq, hn]
          simp
      | true =>
          cases hg : isFunVal o.generator with
          | false =>
              refine ⟨[], ?_⟩
              simp only [addMiddleware]
              rw [nameCheck_eq, genCheck_eq, hn, hg]
              simp
          | true => exact ⟨[{ o with incl := normIncl o.incl }], by rw [addMiddleware_ok_eq ms o hn hg]⟩
  | missing => exact ⟨[], by simp [addMiddleware]⟩
  | nullV => exact ⟨[], by simp [addMiddleware]⟩
  | boolA b => exact ⟨[], by simp [addMiddleware]⟩
  | numA n => exact ⟨[], by simp [addMiddleware]⟩
  | strA s => exact ⟨[], by simp [addMiddleware]⟩
  | funA f => exact ⟨[], by simp [addMiddleware]⟩

theorem setMiddlewaresGo_extends (l : List AddArg) :
    ∀ ms, ∃ t, (setMiddlewaresGo ms l).2 = ms ++ t := by
  induction l with
  | nil => intro ms; exact ⟨[], by simp [setMiddlewaresGo]⟩
  | cons a rest ih =>
      intro ms
      obtain ⟨t1, ht1⟩ := addMiddleware_snd_extends ms a
      cases hh : addMiddleware ms a with
      | mk opt ms' =>
          have hms' : ms' = ms ++ t1 := by rw [hh] at ht1; exact ht1
          subst hms'
          cases opt with
          | some e => exact ⟨t1, by simp [setMiddlewaresGo, hh]⟩
          | none =>
              obtain ⟨t2, ht2⟩ := ih (ms ++ t1)
              refine ⟨t1 ++ t2, ?_⟩
              simp [setMiddlewaresGo, hh, ht2, List.append_assoc]
theorem buildRouter_cons_ok (ms : List MWObject) (router : Router) (r : RouteObject)
    (rest : List RouteObject) (hg : goodRoute ms r) :
    buildRouter ms router (r :: rest) =
      buildRouter ms ⟨router.registered ++ [(methodKey r, chainOf ms r)]⟩ rest := by
  obtain ⟨h1, h2⟩ := hg
  cases hv : getField r "method" with
  | strV s =>
      have hs : (s != "") = true := by
        rw [hv] at h1; simpa [isNonemptyStrVal] using h1
      cases hb : buildMiddlewares ms r with
      | ok c =>
          simp [buildRouter, hv, hb, jsTruthy, hs, methodKey, chainOf]
      | error e => rw [hb] at h2; simp [exceptIsOk] at h2
  | undefined => rw [hv] at h1; simp [isNonemptyStrVal] at h1
  | null => rw [hv] at h1; simp [isNonemptyStrVal] at h1
  | boolV b => rw [hv] at h1; simp [isNonemptyStrVal] at h1
  | numV n => rw [hv] at h1; simp [isNonemptyStrVal] at h1
  | funV f => rw [hv] at h1; simp [isNonemptyStrVal] at h1

theorem buildRouter_all_ok (ms : List MWObject) (rs : List RouteObject) :
    ∀ router : Router, (∀ r ∈ rs, goodRoute ms r) →
    buildRouter ms router rs =
      (none, ⟨router.registered ++ rs.map (fun r => (methodKey r, chainOf ms r))⟩) := by
  induction rs with
  | nil => intro router _; simp [buildRouter]
  | cons r rest ih =>
      intro router h
      rw [buildRouter_cons_ok ms router r rest (h r (List.mem_cons_self r rest))]
      rw [ih _ (fun r' hr' => h r' (List.mem_cons_of_mem r hr'))]
      simp

theorem buildRouter_cons_fail (ms : List MWObject) (router : Router) (r : RouteObject)
    (rest : List RouteObject) (hb : ¬ goodRoute ms r) :
    ∃ e, buildRouter ms router (r :: rest) = (some e, router) := by
  by_cases ht : jsTruthy (getField r "method") = true
  · cases hbm : buildMiddlewares ms r with
    | error e => exact ⟨e, by simp [buildRouter, ht, hbm]⟩
    | ok c =>
        cases hv : getField r "method" with
        | strV s =>
            exfalso
            apply hb
            constructor
            · rw [hv]; rw [hv] at ht; simpa [isNonemptyStrVal, jsTruthy] using ht
            · rw [hbm]; rfl
        | undefined => rw [hv] at ht; simp [jsTruthy] at ht
        | null => rw [hv] at ht; simp [jsTruthy] at ht
        | boolV b =>
            rw [hv] at ht
            exact ⟨"TypeError: routeObject.method.toLowerCase is not a function",
              by simp [buildRouter, hv, ht, hbm]⟩
        | numV n =>
            rw [hv] at ht
            exact ⟨"TypeError: routeObject.method.toLowerCase is not a function",
              by simp [buildRouter, hv, ht, hbm]⟩
        | funV f =>
            rw [hv] at ht
            exact ⟨"TypeError: routeObject.method.toLowerCase is not a function",
              by simp [buildRouter, hv, ht, hbm]⟩
  · refine ⟨"routeObject requires a \x27method\x27 object", ?_⟩
    have ht' : jsTruthy (getField r "method") = false := by
      cases hx : jsTruthy (getField r "method")
      · rfl
      · exact absurd hx ht
    simp [buildRouter, ht']

theorem buildRouter_partial (ms : List MWObject) (rs1 : List RouteObject) :
    ∀ (router : Router) (r : RouteObject) (rs2 : List RouteObject),
    (∀ r' ∈ rs1, goodRoute ms r') → ¬ goodRoute ms r →
    ∃ e, buildRouter ms router (rs1 ++ r :: rs2) =
      (some e, ⟨router.registered ++ rs1.map (fun r' => (methodKey r', chainOf ms r'))⟩) := by
  induction rs1 with
  | nil =>
      intro router r rs2 _ hbad
      obtain ⟨e, he⟩ := buildRouter_cons_fail ms router r rs2 hbad
      exact ⟨e, by simpa using he⟩
  | cons r1 rest1 ih =>
      intro router r rs2 hgood hbad
      rw [List.cons_append,
        buildRouter_cons_ok ms router r1 (rest1 ++ r :: rs2) (hgood r1 (List.mem_cons_self r1 rest1))]
      obtain ⟨e, he⟩ :=
        ih ⟨router.registered ++ [(methodKey r1, chainOf ms r1)]⟩ r rs2
          (fun r' hr' => hgood r' (List.mem_cons_of_mem r1 hr')) hbad
      exact ⟨e, by rw [he]; simp⟩

theorem eraseDebug_runSteps (label : String) (next : NextFn) (steps : List MWStep) :
    eraseDebug (runSteps (wrapNext label next) steps) = eraseDebug (runSteps next steps) := by
  induction steps with
  | nil => rfl
  | cons st rest ih =>
      cases st with
      | emit e =>
          simp only [runSteps, eraseDebug, List.filter_cons] at ih ⊢
          rw [ih]
      | callNext err =>
          simp only [runSteps, eraseDebug, List.filter_append] at ih ⊢
          rw [ih]
          congr 1
          unfold wrapNext
          by_cases hte : jsTruthy err = true
          · simp [hte, List.filter_cons, isUserEv]
          · simp [hte, List.filter_cons, isUserEv]

/-! ### Claim theorems -/

/-- C1 (code bug): the "required" include policy never aborts a build.
`addMiddleware` normalizes a truthy `include` into an array, while
`buildMiddlewares` tests the stored `include` with `=== "required"` (strict
equality against a string), which an array never satisfies.  Registering the
README's `{name: "handler", include: "required"}` descriptor and building a
route without a `handler` field returns a chain silently — no
"handler is a required configuration" error, and the middleware is simply
omitted. -/
theorem required_policy_never_aborts :
    addMiddleware []
        (AddArg.obj ⟨JSVal.strV "handler", some (IncludeVal.str "required"), JSVal.funV 7⟩)
      = (none, [⟨JSVal.strV "handler", some (IncludeVal.arr ["required"]), JSVal.funV 7⟩]) ∧
    inclStrictEqRequired (some (IncludeVal.arr ["required"])) = false ∧
    buildMiddlewares [⟨JSVal.strV "handler", some (IncludeVal.arr ["required"]), JSVal.funV 7⟩]
        [("method", JSVal.strV "get"), ("path", JSVal.strV "/badgers")]
      = Except.ok [ChainElem.pathEl (JSVal.strV "/badgers")] :=
  ⟨by decide, by decide, by decide⟩

/-- C2: for a registry of descriptors in add-normalized form and a route that
passes validation, the chain is the path followed by exactly those
descriptors whose policy contains "all", or contains a token equal to the
route's method (string equality), or whose name is an own field of the
route, mapped in registration order; and for two descriptors both meeting
the criterion, the one occurring earlier in the registry occurs earlier in
the chain (so swapping their registration order swaps their chain order). -/
theorem buildChain_inclusion_iff_order (ms : List MWObject) (r : RouteObject)
    (hp : jsTruthy (getField r "path") = true)
    (hm : jsTruthy (getField r "method") = true)
    (hreg : ∀ m ∈ ms, addedFormB m.incl = true) :
    buildMiddlewares ms r =
      Except.ok (ChainElem.pathEl (getField r "path") ::
        (ms.filter (claimCond r)).map (mkHandler r)) ∧
    (∀ l1 x l2 y l3, ms = l1 ++ x :: (l2 ++ y :: l3) →
      claimCond r x = true → claimCond r y = true →
      buildMiddlewares ms r =
        Except.ok (ChainElem.pathEl (getField r "path") ::
          ((l1.filter (claimCond r)).map (mkHandler r) ++ mkHandler r x ::
            ((l2.filter (claimCond r)).map (mkHandler r) ++ mkHandler r y ::
              (l3.filter (claimCond r)).map (mkHandler r))))) := by
  have hreq : ∀ m ∈ ms, inclStrictEqRequired m.incl = false :=
    fun m hm' => addedFormB_required m.incl (hreg m hm')
  have hfeq : ms.filter (inclCond r) = ms.filter (claimCond r) :=
    List.filter_congr (fun m hm' => inclCond_eq_claimCond r m hm (hreg m hm'))
  have h1 : buildMiddlewares ms r = Except.ok (ChainElem.pathEl (getField r "path") ::
      (ms.filter (claimCond r)).map (mkHandler r)) := by
    rw [buildMiddlewares_spec ms r hp hm hreq, hfeq]
  refine ⟨h1, ?_⟩
  intro l1 x l2 y l3 hms hx hy
  rw [h1, hms]
  simp [List.filter_append, List.filter_cons, hx, hy]

/-- Witness for C2 at the repository's test configuration. -/
theorem buildChain_inclusion_iff_order_witness :
    (∀ m ∈ ([⟨JSVal.strV "pagination", some (IncludeVal.arr ["get"]), JSVal.funV 1⟩,
        ⟨JSVal.strV "authorization", some (IncludeVal.arr ["optional"]), JSVal.funV 2⟩] :
          List MWObject),
      addedFormB m.incl = true) ∧
    buildMiddlewares
        [⟨JSVal.strV "pagination", some (IncludeVal.arr ["get"]), JSVal.funV 1⟩,
         ⟨JSVal.strV "authorization", some (IncludeVal.arr ["optional"]), JSVal.funV 2⟩]
        [("method", JSVal.strV "get"), ("path", JSVal.strV "/fish"),
         ("authorization", JSVal.strV "bearer")]
      = Except.ok [ChainElem.pathEl (JSVal.strV "/fish"),
          ChainElem.handlerEl "pagination" (JSVal.funV 1) JSVal.undefined,
          ChainElem.handlerEl "authorization" (JSVal.funV 2) (JSVal.strV "bearer")] :=
  ⟨by decide,
    ((buildChain_inclusion_iff_order _ _ (by decide) (by decide) (by decide)).1).trans (by decide)⟩

/-- C3 counterexample: method-token inclusion is NOT decided against a
lowercase-normalized method.  A middleware with policy token "get" is
included for a route with method "get" but not for the same route with
method "GET". -/
theorem method_token_case_cex :
    buildMiddlewares [⟨JSVal.strV "pagination", some (IncludeVal.arr ["get"]), JSVal.funV 1⟩]
        [("path", JSVal.strV "/fish"), ("method", JSVal.strV "GET")]
      = Except.ok [ChainElem.pathEl (JSVal.strV "/fish")] ∧
    buildMiddlewares [⟨JSVal.strV "pagination", some (IncludeVal.arr ["get"]), JSVal.funV 1⟩]
        [("path", JSVal.strV "/fish"), ("method", JSVal.strV "get")]
      = Except.ok [ChainElem.pathEl (JSVal.strV "/fish"),
          ChainElem.handlerEl "pagination" (JSVal.funV 1) JSVal.undefined] :=
  ⟨by decide, by decide⟩

/-- C3 amended: method-token inclusion compares the policy tokens against
the route's method exactly as given, case-sensitively, with no lowercase
normalization on either side. -/
theorem method_token_match_exact (r : RouteObject) (m : MWObject) (l : List String) (s : String)
    (hi : m.incl = some (IncludeVal.arr l))
    (hv : getField r "method" = JSVal.strV s) :
    shouldAddMiddleware r m = (l.contains "all" || l.contains s) := by
  simp [shouldAddMiddleware, hi, iTruthy, inclHasToken, hv]

/-- Witness for the amended C3: the "get" policy token does not match method
"GET". -/
theorem method_token_match_exact_witness :
    shouldAddMiddleware [("path", JSVal.strV "/fish"), ("method", JSVal.strV "GET")]
        ⟨JSVal.strV "pagination", some (IncludeVal.arr ["get"]), JSVal.funV 1⟩ = false :=
  (method_token_match_exact _ _ ["get"] "GET" (by decide) (by decide)).trans (by decide)
/-- C4: `buildRouter` processes route objects in input order, registering one
`(lowercased method, chain)` entry per route on the router it was given
(path first, then each handler, as the chain's positional arguments), and
returns that router; when some route fails, the routes before it stay
registered (no rollback). -/
theorem buildRouter_in_order_no_rollback (ms : List MWObject) (router : Router)
    (rs : List RouteObject) :
    ((∀ r ∈ rs, goodRoute ms r) →
      buildRouter ms router rs =
        (none, ⟨router.registered ++ rs.map (fun r => (methodKey r, chainOf ms r))⟩)) ∧
    (∀ rs1 r rs2, rs = rs1 ++ r :: rs2 →
      (∀ r' ∈ rs1, goodRoute ms r') → ¬ goodRoute ms r →
      ∃ e, buildRouter ms router rs =
        (some e, ⟨router.registered ++ rs1.map (fun r' => (methodKey r', chainOf ms r'))⟩)) := by
  constructor
  · exact fun h => buildRouter_all_ok ms rs router h
  · intro rs1 r rs2 hrs hgood hbad
    subst hrs
    exact buildRouter_partial ms rs1 router r rs2 hgood hbad

/-- Witness for C4: two routes, two registered entries, in order, methods
lowercased. -/
theorem buildRouter_in_order_no_rollback_witness :
    buildRouter [] ⟨[]⟩
        [[("method", JSVal.strV "GET"), ("path", JSVal.strV "/badgers")],
         [("method", JSVal.strV "post"), ("path", JSVal.strV "/badgers")]]
      = (none, ⟨[("get", [ChainElem.pathEl (JSVal.strV "/badgers")]),
          ("post", [ChainElem.pathEl (JSVal.strV "/badgers")])]⟩) :=
  ((buildRouter_in_order_no_rollback [] ⟨[]⟩ _).1 (by decide)).trans (by decide)

/-- C5 counterexample: a present scalar `include` that is the empty string is
left in scalar form by `addMiddleware` (the truthiness guard skips the
normalization), so a present `includePolicy` is not always normalized to
sequence form. -/
theorem include_empty_scalar_cex :
    addMiddleware []
        (AddArg.obj ⟨JSVal.strV "authUser", some (IncludeVal.str ""), JSVal.funV 3⟩)
      = (none, [⟨JSVal.strV "authUser", some (IncludeVal.str ""), JSVal.funV 3⟩]) ∧
    (some (IncludeVal.str "") : Option IncludeVal).isSome = true ∧
    isSeqForm (some (IncludeVal.str "")) = false :=
  ⟨by decide, by decide, by decide⟩

/-- C5 amended: for every valid descriptor, `addMiddleware` appends exactly
one entry at the tail; a present and truthy `include` (a non-empty scalar or
any sequence) is normalized at add time — a non-empty scalar is wrapped into
a one-element sequence and a sequence keeps its elements in order — while a
falsy `include` (absent or the empty scalar) is stored unchanged. -/
theorem addMiddleware_appends_normalized (ms : List MWObject) (o : MWObject)
    (hn : isNonemptyStrVal o.name = true) (hg : isFunVal o.generator = true) :
    addMiddleware ms (AddArg.obj o) = (none, ms ++ [{ o with incl := normIncl o.incl }]) ∧
    (addMiddleware ms (AddArg.obj o)).2.length = ms.length + 1 ∧
    (∀ s, o.incl = some (IncludeVal.str s) → (s != "") = true →
      normIncl o.incl = some (IncludeVal.arr [s])) ∧
    (∀ l, o.incl = some (IncludeVal.arr l) → normIncl o.incl = some (IncludeVal.arr l)) ∧
    (includeTruthy o.incl = false → normIncl o.incl = o.incl) := by
  have h1 := addMiddleware_ok_eq ms o hn hg
  refine ⟨h1, by rw [h1]; simp, ?_, ?_, ?_⟩
  · intro s hs hne
    rw [hs]
    simp [normIncl, includeTruthy, iTruthy, hne, concatWrap]
  · intro l hl
    rw [hl]
    simp [normIncl, includeTruthy, iTruthy, concatWrap]
  · intro hfalse
    simp [normIncl, hfalse]

/-- Witness for the amended C5: a scalar "optional" policy is wrapped into a
one-element array and the descriptor is appended. -/
theorem addMiddleware_appends_normalized_witness :
    addMiddleware []
        (AddArg.obj ⟨JSVal.strV "authUser", some (IncludeVal.str "optional"), JSVal.funV 2⟩)
      = (none, [⟨JSVal.strV "authUser", some (IncludeVal.arr ["optional"]), JSVal.funV 2⟩]) :=
  ((addMiddleware_appends_normalized [] _ (by decide) (by decide)).1).trans (by decide)

/-- C6 counterexample: an object whose `name` is the empty string — a
present, string-typed name — is rejected by `addMiddleware` (the truthiness
test treats "" as missing), so `add` does not fail ONLY on a missing or
non-string name. -/
theorem add_empty_name_cex :
    addMiddleware [] (AddArg.obj ⟨JSVal.strV "", none, JSVal.funV 0⟩)
      = (some "addMiddleware: name required", []) ∧
    jsTypeof (JSVal.strV "") = "string" ∧
    (JSVal.strV "" ≠ JSVal.undefined) :=
  ⟨by decide, by decide, by decide⟩

/-- C6 amended: `addMiddleware` fails exactly when its argument is not a
structured object, or its `name` is not a non-empty string (missing, empty,
or not a string), or its `generator` is not a function; and in every failing
case the registry is left unchanged. -/
theorem addMiddleware_failure_iff (ms : List MWObject) (a : AddArg) :
    ((addMiddleware ms a).1.isSome = true ↔
      isObjArg a = false ∨
        ∃ o, a = AddArg.obj o ∧
          (isNonemptyStrVal o.name = false ∨ isFunVal o.generator = false)) ∧
    ((addMiddleware ms a).1.isSome = true → (addMiddleware ms a).2 = ms) := by
  refine ⟨?_, addMiddleware_err_snd ms a⟩
  cases a with
  | obj o =>
      cases hn : isNonemptyStrVal o.name with
      | false =>
          constructor
          · intro _
            exact Or.inr ⟨o, rfl, Or.inl hn⟩
          · intro _
            simp only [addMiddleware]
            rw [nameCheck_eq, hn]
            simp
      | true =>
          cases hg : isFunVal o.generator with
          | false =>
              constructor
              · intro _
                exact Or.inr ⟨o, rfl, Or.inr hg⟩
              · intro _
                simp only [addMiddleware]
                rw [nameCheck_eq, genCheck_eq, hn, hg]
                simp
          | true =>
              rw [addMiddleware_ok_eq ms o hn hg]
              constructor
              · intro h
                exact absurd h (by simp)
              · rintro (h | ⟨o', ho', hb | hb⟩)
                · simp [isObjArg] at h
                · obtain rfl : o = o' := AddArg.obj.inj ho'
                  rw [hn] at hb
                  exact absurd hb (by simp)
                · obtain rfl : o = o' := AddArg.obj.inj ho'
                  rw [hg] at hb
                  exact absurd hb (by simp)
  | missing => simp [addMiddleware, isObjArg]
  | nullV => simp [addMiddleware, isObjArg]
  | boolA b => simp [addMiddleware, isObjArg]
  | numA n => simp [addMiddleware, isObjArg]
  | strA s => simp [addMiddleware, isObjArg]
  | funA f => simp [addMiddleware, isObjArg]

/-- Witness for the amended C6: a missing argument fails and leaves the
registry unchanged. -/
theorem addMiddleware_failure_iff_witness :
    (addMiddleware [] AddArg.missing).1.isSome = true ∧
    (addMiddleware [] AddArg.missing).2 = [] :=
  ⟨by decide, (addMiddleware_failure_iff [] AddArg.missing).2 (by decide)⟩
/-- C7: `buildMiddlewares` fails when the route's `path` is absent, and with
a present (truthy) path fails when `method` is absent; both checks are
independent of the registry contents and yield an error with no partial
chain. -/
theorem buildChain_path_then_method_validation (ms : List MWObject) (r : RouteObject) :
    (hasOwn r "path" = false →
      buildMiddlewares ms r = Except.error "route object requires a \x27path\x27 attribute") ∧
    (jsTruthy (getField r "path") = true → hasOwn r "method" = false →
      buildMiddlewares ms r = Except.error "route object requires a \x27methods\x27 attribute") := by
  constructor
  · intro h
    have hf := getField_of_not_hasOwn r "path" h
    simp [buildMiddlewares, hf, jsTruthy]
  · intro hp h
    have hf := getField_of_not_hasOwn r "method" h
    simp [buildMiddlewares, hp, hf, show jsTruthy JSVal.undefined = false from rfl]

/-- Witness for C7: a route without a path, and a route with a path but no
method. -/
theorem buildChain_path_then_method_validation_witness :
    buildMiddlewares [] [("method", JSVal.strV "get")]
      = Except.error "route object requires a \x27path\x27 attribute" ∧
    buildMiddlewares [] [("path", JSVal.strV "/badgers")]
      = Except.error "route object requires a \x27methods\x27 attribute" :=
  ⟨(buildChain_path_then_method_validation [] _).1 (by decide),
    (buildChain_path_then_method_validation [] _).2 (by decide) (by decide)⟩

/-- C8: across the module's exported API, the registry only ever grows by
appended entries (no removal, no reordering), and the chain-building calls
(`buildMiddlewares`, `buildRouter`) leave it exactly as it was. -/
theorem registry_append_only :
    (∀ ms c, registryExtends ms (apiStep ms c)) ∧
    (∀ ms r, apiStep ms (ApiCall.build r) = ms) ∧
    (∀ ms router rs, apiStep ms (ApiCall.buildR router rs) = ms) := by
  refine ⟨?_, fun ms r => rfl, fun ms router rs => rfl⟩
  intro ms c
  cases c with
  | add a => exact addMiddleware_snd_extends ms a
  | addMany a =>
      cases a with
      | none => exact ⟨[], by simp [apiStep, setMiddlewares]⟩
      | some l => exact setMiddlewaresGo_extends l ms
  | listAll => exact ⟨[], by simp [apiStep, getMiddlewares]⟩
  | build r => exact ⟨[], by simp [apiStep]⟩
  | buildR router rs => exact ⟨[], by simp [apiStep]⟩

/-- C9: `logMiddlware` returns a handler of the same signature that calls
the wrapped middleware exactly once with the same request and response and a
substituted continuation; the substituted continuation logs and then calls
the original continuation with the error value unchanged (truthy or not);
and, erasing log events, the wrapped and unwrapped handlers produce the same
trace and the same return value. -/
theorem logMiddlware_transparent :
    (∀ label h req res next,
      logMiddlware label h req res next =
        (Ev.debug label "started" :: (h req res (wrapNext label next)).1,
          (h req res (wrapNext label next)).2)) ∧
    (∀ label next err,
      wrapNext label next err =
        (if jsTruthy err then [Ev.debugErr label err] else [Ev.debug label "complete"])
          ++ next err) ∧
    (∀ b label req res next,
      eraseDebug (logMiddlware label (interp b) req res next).1 =
          eraseDebug ((interp b) req res next).1 ∧
        (logMiddlware label (interp b) req res next).2 = ((interp b) req res next).2) := by
  refine ⟨fun label h req res next => rfl, fun label next err => rfl, ?_⟩
  intro b label req res next
  constructor
  · have h1 : eraseDebug (logMiddlware label (interp b) req res next).1
        = eraseDebug (runSteps (wrapNext label next) (b.steps req res)) := by
      simp [logMiddlware, interp, eraseDebug, List.filter_cons, isUserEv]
    rw [h1, eraseDebug_runSteps]
    rfl
  · rfl

/-- C10: policy tokens are matched uniformly against the route's method with
no special-casing of "optional" or "required": a registered descriptor whose
normalized policy contains one of those tokens is included for a route whose
method equals that token, even though the route has no same-named field (its
generator is then invoked with `undefined`). -/
theorem policy_tokens_uniform (ms : List MWObject) (r : RouteObject) (m : MWObject)
    (l : List String) (tok : String)
    (hmem : m ∈ ms) (hi : m.incl = some (IncludeVal.arr l)) (htok : tok ∈ l)
    (hkind : tok = "optional" ∨ tok = "required")
    (hp : jsTruthy (getField r "path") = true)
    (hv : getField r "method" = JSVal.strV tok)
    (hreg : ∀ m' ∈ ms, addedFormB m'.incl = true)
    (hno : hasOwn r (jsToString m.name) = false) :
    ∃ c, buildMiddlewares ms r = Except.ok c ∧
      ChainElem.handlerEl (jsToString m.name) m.generator JSVal.undefined ∈ c := by
  have hm : jsTruthy (getField r "method") = true := by
    rcases hkind with h | h <;> rw [hv, h] <;> decide
  have hreq : ∀ m' ∈ ms, inclStrictEqRequired m'.incl = false :=
    fun m' hm' => addedFormB_required m'.incl (hreg m' hm')
  refine ⟨_, buildMiddlewares_spec ms r hp hm hreq, ?_⟩
  have hshould : shouldAddMiddleware r m = true := by
    simp [shouldAddMiddleware, hi, iTruthy, inclHasToken, hv]
    exact Or.inr htok
  have hcond : inclCond r m = true := by simp [inclCond, hshould]
  have hfield : getField r (jsToString m.name) = JSVal.undefined :=
    getField_of_not_hasOwn r _ hno
  have hmk : mkHandler r m
      = ChainElem.handlerEl (jsToString m.name) m.generator JSVal.undefined := by
    simp [mkHandler, hfield]
  rw [← hmk]
  exact List.mem_cons_of_mem _ (List.mem_map_of_mem _ (List.mem_filter.mpr ⟨hmem, hcond⟩))

/-- Witness for C10: an "optional"-policy middleware is included for a route
whose method is the string "optional", with no same-named field. -/
theorem policy_tokens_uniform_witness :
    ∃ c, buildMiddlewares
        [⟨JSVal.strV "authUser", some (IncludeVal.arr ["optional"]), JSVal.funV 2⟩]
        [("path", JSVal.strV "/x"), ("method", JSVal.strV "optional")] = Except.ok c ∧
      ChainElem.handlerEl "authUser" (JSVal.funV 2) JSVal.undefined ∈ c :=
  policy_tokens_uniform
    [⟨JSVal.strV "authUser", some (IncludeVal.arr ["optional"]), JSVal.funV 2⟩]
    [("path", JSVal.strV "/x"), ("method", JSVal.strV "optional")]
    ⟨JSVal.strV "authUser", some (IncludeVal.arr ["optional"]), JSVal.funV 2⟩
    ["optional"] "optional" (by decide) (by decide) (by decide)
    (Or.inl rfl) (by decide) (by decide) (by decide) (by decide)
